import Mathlib

/-!
Verification of the natural-gas dashboard's ingestion/reshaping pipeline.

The repository's pages share a pandas pipeline: locate the latest matching
file, parse it into a table keyed by a date column, compute derived metrics
(percent changes, rolling bands, price spreads) and merge tables on the date
key.  We embed that pipeline shallowly:

* calendar dates are day numbers (`Int`); the year-month dates of the EU
  storage table are a `year`/`month` pair;
* floating-point values are modelled as exact rationals (`Rat`); the decimal
  constants of the source (1.15, 0.70, ...) are written as the equal
  fractions (115/100, 70/100, ...);
* a pandas `NaN`/`NaT` ("missing") cell is `Option.none`; `to_datetime`/
  `to_numeric` with errors="coerce" yield `none` exactly on parse failure;
* a DataFrame is a list of rows in frame order; `sort_values` is the stable
  `List.insertionSort`;
* an operation that can raise on an empty frame (`.iloc[0]`) returns an
  `Option`, `none` standing for the fault.
-/

/-! ## File Locator (src/page1.py, load_latest_file) -/

/-- A directory entry: file name and modification timestamp (st_mtime). -/
structure FileEntry where
  name : String
  mtime : Int
  deriving DecidableEq

/-- Whether `needle` occurs at the head of `hay`. -/
def takesSeq : List Char → List Char → Bool
  | [], _ => true
  | _ :: _, [] => false
  | c :: cs, h :: hs => c = h && takesSeq cs hs

/-- Whether `needle` occurs contiguously anywhere in `hay`. -/
def hasSeq (needle : List Char) : List Char → Bool
  | [] => takesSeq needle []
  | h :: hs => takesSeq needle (h :: hs) || hasSeq needle hs

/-- The glob pattern of load_latest_file: a name matches when it ends with
`ext` and contains `keyword` before that suffix, i.e. it decomposes as
x ++ keyword ++ y ++ ext. -/
def globMatch (keyword ext name : String) : Bool :=
  let n := name.data
  let e := ext.data
  takesSeq e.reverse n.reverse && hasSeq keyword.data (n.take (n.length - e.length))

/-- Python max(files, key=mtime): fold keeping the current maximum, replacing
it only on a strictly larger key, so the first maximum wins on ties. -/
def maxByMtime (best : FileEntry) : List FileEntry → FileEntry
  | [] => best
  | f :: fs => maxByMtime (if best.mtime < f.mtime then f else best) fs

/-- load_latest_file: glob for matching entries, `none` when there is no
match, else the match with the most recent modification time. -/
def load_latest_file (keyword ext : String) (files : List FileEntry) : Option FileEntry :=
  match files.filter (fun f => globMatch keyword ext f.name) with
  | [] => none
  | f :: fs => some (maxByMtime f fs)

theorem maxByMtime_mem (best : FileEntry) (fs : List FileEntry) :
    maxByMtime best fs ∈ best :: fs := by
  induction fs generalizing best with
  | nil => simp [maxByMtime]
  | cons f fs ih =>
    have h := ih (if best.mtime < f.mtime then f else best)
    rcases List.mem_cons.mp h with h | h
    · show maxByMtime _ _ ∈ _
      rw [maxByMtime, h]
      by_cases hc : best.mtime < f.mtime <;> simp [hc]
    · show maxByMtime _ _ ∈ _
      rw [maxByMtime]
      exact List.mem_cons_of_mem _ (List.mem_cons_of_mem _ h)

theorem maxByMtime_le (best : FileEntry) (fs : List FileEntry) :
    ∀ g ∈ best :: fs, g.mtime ≤ (maxByMtime best fs).mtime := by
  induction fs generalizing best with
  | nil => intro g hg; rw [List.mem_singleton.mp hg]; simp [maxByMtime]
  | cons f fs ih =>
    intro g hg
    have hstep : best.mtime ≤ (if best.mtime < f.mtime then f else best).mtime ∧
        f.mtime ≤ (if best.mtime < f.mtime then f else best).mtime := by
      by_cases hc : best.mtime < f.mtime <;> simp [hc] <;> omega
    have hrec := ih (if best.mtime < f.mtime then f else best)
    have hres : (maxByMtime best (f :: fs)).mtime =
        (maxByMtime (if best.mtime < f.mtime then f else best) fs).mtime := by
      rw [maxByMtime]
    rcases List.mem_cons.mp hg with hg | hg
    · rw [hg, hres]
      exact le_trans hstep.1 (hrec _ (List.mem_cons_self _ _))
    rcases List.mem_cons.mp hg with hg | hg
    · rw [hg, hres]
      exact le_trans hstep.2 (hrec _ (List.mem_cons_self _ _))
    · rw [hres]
      exact hrec _ (List.mem_cons_of_mem _ hg)

/-- Claim C8: among the files whose name matches the glob (contains the
keyword, then ends with the extension), load_latest_file returns the one with
the most recent modification timestamp; with no match it returns `none`
rather than raising.  In particular, with the two JKM csv files of Scenario C
it returns the more recently modified one. -/
theorem load_latest_file_correct (keyword ext : String) (files : List FileEntry) :
    (files.filter (fun f => globMatch keyword ext f.name) = [] →
      load_latest_file keyword ext files = none) ∧
    (files.filter (fun f => globMatch keyword ext f.name) ≠ [] →
      ∃ g, load_latest_file keyword ext files = some g ∧
        g ∈ files.filter (fun f => globMatch keyword ext f.name) ∧
        ∀ h ∈ files.filter (fun f => globMatch keyword ext f.name), h.mtime ≤ g.mtime) ∧
    load_latest_file "JKM" ".csv"
      [⟨"JKM_2024-01-01.csv", 100⟩, ⟨"JKM_2024-02-01.csv", 200⟩] =
      some ⟨"JKM_2024-02-01.csv", 200⟩ := by
  refine ⟨fun h => ?_, fun h => ?_, by decide⟩
  · rw [load_latest_file, h]
  · rcases hm : files.filter (fun f => globMatch keyword ext f.name) with _ | ⟨f, fs⟩
    · exact absurd hm h
    refine ⟨maxByMtime f fs, ?_, ?_, ?_⟩
    · rw [load_latest_file, hm]
    · rw [hm]; exact maxByMtime_mem f fs
    · rw [hm]; exact maxByMtime_le f fs

/-- Witness for C8 at a concrete directory listing. -/
theorem load_latest_file_correct_witness :
    (([⟨"HenryHub.csv", 5⟩, ⟨"JKM_a.csv", 1⟩, ⟨"JKM_b.csv", 3⟩] : List FileEntry).filter
        (fun f => globMatch "JKM" ".csv" f.name) ≠ []) ∧
    (∃ g, load_latest_file "JKM" ".csv"
        [⟨"HenryHub.csv", 5⟩, ⟨"JKM_a.csv", 1⟩, ⟨"JKM_b.csv", 3⟩] = some g ∧
      g ∈ ([⟨"HenryHub.csv", 5⟩, ⟨"JKM_a.csv", 1⟩, ⟨"JKM_b.csv", 3⟩] : List FileEntry).filter
          (fun f => globMatch "JKM" ".csv" f.name) ∧
      ∀ h ∈ ([⟨"HenryHub.csv", 5⟩, ⟨"JKM_a.csv", 1⟩, ⟨"JKM_b.csv", 3⟩] : List FileEntry).filter
          (fun f => globMatch "JKM" ".csv" f.name), h.mtime ≤ g.mtime) :=
  ⟨by decide, (load_latest_file_correct "JKM" ".csv" _).2.1 (by decide)⟩

/-! ## Source Parsers (src/page1.py, load_henry_hub / load_jkm)

A raw csv row after column coercion: `pd.to_datetime(df["Date"],
errors="coerce")` yields a valid date or `none` (NaT), and
`pd.to_numeric(df["Close"] / df["Price"], errors="coerce")` yields a number
or `none` (NaN); neither raises on malformed input. -/

abbrev RawPriceRow := Option Int × Option Rat

/-- The shared tail of both parsers: keep the Date and value columns and drop
any row with a missing entry in either (the final `.dropna()`). -/
def coerceRow (r : RawPriceRow) : Option (Int × Rat) :=
  match r.1, r.2 with
  | some d, some v => some (d, v)
  | _, _ => none

/-- load_henry_hub on the coerced rows of the located csv (Date, Close). -/
def load_henry_hub (raws : List RawPriceRow) : List (Int × Rat) :=
  raws.filterMap coerceRow

/-- load_jkm on the coerced rows of the located csv (Date, Price). -/
def load_jkm (raws : List RawPriceRow) : List (Int × Rat) :=
  raws.filterMap coerceRow

theorem coerceRow_eq_some (r : RawPriceRow) (d : Int) (v : Rat) :
    coerceRow r = some (d, v) ↔ r = (some d, some v) := by
  rcases r with ⟨rd, rv⟩
  rcases rd with _ | d₀ <;> rcases rv with _ | v₀ <;>
    simp [coerceRow, Prod.ext_iff, and_comm]

/-- Claim C6: a parsed row appears in the parser output exactly when both its
date and its numeric field coerced successfully; so a row with an unparseable
date (or value) is absent, and every output row carries a valid date and a
non-missing value.  Malformed fields are mapped to `none` by the coercion and
filtered, never raised. -/
theorem parser_drops_malformed (raws : List RawPriceRow) (d : Int) (v : Rat) :
    ((d, v) ∈ load_henry_hub raws ↔ (some d, some v) ∈ raws) ∧
    ((d, v) ∈ load_jkm raws ↔ (some d, some v) ∈ raws) := by
  have key : (d, v) ∈ raws.filterMap coerceRow ↔ (some d, some v) ∈ raws := by
    rw [List.mem_filterMap]
    constructor
    · rintro ⟨r, hr, hcoer⟩
      rwa [(coerceRow_eq_some r d v).mp hcoer] at hr
    · intro h
      exact ⟨(some d, some v), h, (coerceRow_eq_some _ d v).mpr rfl⟩
  exact ⟨key, key⟩

/-- Witness for C6 at a concrete list of raw rows (one well-formed row, one
with an unparseable date, one with a non-numeric value). -/
theorem parser_drops_malformed_witness :
    ((3, (5 : Rat)) ∈ load_henry_hub [(some 3, some 5), (none, some 7), (some 4, none)] ↔
      ((some 3 : Option Int), (some 5 : Option Rat)) ∈
        [(some 3, some 5), (none, some 7), (some 4, none)]) ∧
    ((3, (5 : Rat)) ∈ load_jkm [(some 3, some 5), (none, some 7), (some 4, none)] ↔
      ((some 3 : Option Int), (some 5 : Option Rat)) ∈
        [(some 3, some 5), (none, some 7), (some 4, none)]) :=
  parser_drops_malformed [(some 3, some 5), (none, some 7), (some 4, none)] 3 5

/-! ## Merger (src/page1.py, get_benchmark_prices_daily)

pd.merge(A, B, on="Date", how="outer"): every left row is paired with every
right row sharing its date (with a missing right column when there is none),
and right rows whose date never occurs on the left are appended with a
missing left column.  get_benchmark_prices_daily chains two such merges and
then sorts by Date and drops every row with a missing value. -/

/-- A NormalizedSeries: rows (Date, value); parser outputs have no missing
values left. -/
abbrev Series := List (Int × Rat)

/-- A row of the first outer merge: Date, Henry Hub?, JKM?. -/
abbrev MergedRow2 := Int × Option Rat × Option Rat

/-- A row of the second outer merge: Date, Henry Hub?, JKM?, TTF (USD)?. -/
abbrev MergedRow3 := Int × Option Rat × Option Rat × Option Rat

/-- A fully populated benchmark row after the final dropna. -/
abbrev BenchRow := Int × Rat × Rat × Rat

/-- pd.merge(hh, jkm, on="Date", how="outer"). -/
def outerMerge2 (A B : Series) : List MergedRow2 :=
  (A.flatMap fun a =>
    match B.filter (fun b => b.1 = a.1) with
    | [] => [(a.1, some a.2, none)]
    | m :: ms => (m :: ms).map fun b => (a.1, some a.2, some b.2))
  ++ (B.filter fun b => ¬ A.any fun a => a.1 = b.1).map fun b => (b.1, none, some b.2)

/-- pd.merge(df, ttf, on="Date", how="outer") for the already-merged df. -/
def outerMerge3 (AB : List MergedRow2) (C : Series) : List MergedRow3 :=
  (AB.flatMap fun r =>
    match C.filter (fun c => c.1 = r.1) with
    | [] => [(r.1, r.2.1, r.2.2, none)]
    | m :: ms => (m :: ms).map fun c => (r.1, r.2.1, r.2.2, some c.2))
  ++ (C.filter fun c => ¬ AB.any fun r => r.1 = c.1).map fun c => (c.1, none, none, some c.2)

/-- The final `.dropna()`: keep only rows with every column present. -/
def dropna3 (rows : List MergedRow3) : List BenchRow :=
  rows.filterMap fun r =>
    match r with
    | (d, some a, some b, some c) => some (d, a, b, c)
    | _ => none

/-- Date order on three-column merged rows, for `sort_values("Date")`. -/
def m3LE (x y : MergedRow3) : Prop := x.1 ≤ y.1

instance : DecidableRel m3LE := fun x y => inferInstanceAs (Decidable (x.1 ≤ y.1))

instance : IsTotal MergedRow3 m3LE := ⟨fun x y => Int.le_total x.1 y.1⟩

instance : IsTrans MergedRow3 m3LE := ⟨fun _ _ _ h h2 => le_trans h h2⟩

/-- get_benchmark_prices_daily: outer-merge the three parsed series on Date,
sort by Date, drop rows with any missing value. -/
def get_benchmark_prices_daily (hh jkm ttf : Series) : List BenchRow :=
  dropna3 (List.insertionSort m3LE (outerMerge3 (outerMerge2 hh jkm) ttf))

theorem mem_outerMerge2_some (A B : Series) (d : Int) (a b : Rat) :
    (d, some a, some b) ∈ outerMerge2 A B ↔ (d, a) ∈ A ∧ (d, b) ∈ B := by
  rw [outerMerge2, List.mem_append]
  constructor
  · rintro (h | h)
    · rw [List.mem_flatMap] at h
      obtain ⟨x, hxA, hx⟩ := h
      rcases hB : B.filter (fun b0 => b0.1 = x.1) with _ | ⟨m, ms⟩
      · rw [hB] at hx
        simp at hx
      · rw [hB] at hx
        rw [List.mem_map] at hx
        obtain ⟨y, hy, hxy⟩ := hx
        simp only [Prod.mk.injEq, Option.some.injEq] at hxy
        obtain ⟨h1, h2, h3⟩ := hxy
        have hyF : y ∈ B.filter (fun b0 => b0.1 = x.1) := by rw [hB]; exact hy
        have hyB := List.mem_filter.mp hyF
        have hy1 : y.1 = d := (of_decide_eq_true hyB.2).trans h1
        constructor
        · rw [← Prod.mk.eta (p := x), h1, h2] at hxA
          exact hxA
        · have : y = (d, b) := by rw [← Prod.mk.eta (p := y), hy1, h3]
          rw [← this]
          exact hyB.1
    · rw [List.mem_map] at h
      obtain ⟨y, _, hxy⟩ := h
      simp at hxy
  · rintro ⟨hA, hB2⟩
    left
    rw [List.mem_flatMap]
    refine ⟨(d, a), hA, ?_⟩
    have hmem : (d, b) ∈ B.filter (fun b0 => b0.1 = (d, a).1) :=
      List.mem_filter.mpr ⟨hB2, by simp⟩
    rcases hB : B.filter (fun b0 => b0.1 = (d, a).1) with _ | ⟨m, ms⟩
    · rw [hB] at hmem
      simp at hmem
    · rw [hB] at hmem
      rw [hB, List.mem_map]
      exact ⟨(d, b), hmem, rfl⟩

theorem mem_outerMerge3_some (AB : List MergedRow2) (C : Series) (d : Int)
    (a b c : Rat) :
    (d, some a, some b, some c) ∈ outerMerge3 AB C ↔
      (d, some a, some b) ∈ AB ∧ (d, c) ∈ C := by
  rw [outerMerge3, List.mem_append]
  constructor
  · rintro (h | h)
    · rw [List.mem_flatMap] at h
      obtain ⟨x, hxA, hx⟩ := h
      rcases hC : C.filter (fun c0 => c0.1 = x.1) with _ | ⟨m, ms⟩
      · rw [hC] at hx
        simp at hx
      · rw [hC] at hx
        rw [List.mem_map] at hx
        obtain ⟨y, hy, hxy⟩ := hx
        simp only [Prod.mk.injEq, Option.some.injEq] at hxy
        obtain ⟨h1, h2, h3, h4⟩ := hxy
        have hyF : y ∈ C.filter (fun c0 => c0.1 = x.1) := by rw [hC]; exact hy
        have hyC := List.mem_filter.mp hyF
        have hy1 : y.1 = d := (of_decide_eq_true hyC.2).trans h1
        constructor
        · have hx' : x = (d, some a, some b) := by
            rw [← Prod.mk.eta (p := x), ← Prod.mk.eta (p := x.2), h1, h2, h3]
          rwa [hx'] at hxA
        · have : y = (d, c) := by rw [← Prod.mk.eta (p := y), hy1, h4]
          rw [← this]
          exact hyC.1
    · rw [List.mem_map] at h
      obtain ⟨y, _, hxy⟩ := h
      simp at hxy
  · rintro ⟨hA, hC2⟩
    left
    rw [List.mem_flatMap]
    refine ⟨(d, some a, some b), hA, ?_⟩
    have hmem : (d, c) ∈ C.filter (fun c0 => c0.1 = (d, some a, some b).1) :=
      List.mem_filter.mpr ⟨hC2, by simp⟩
    rcases hC : C.filter (fun c0 => c0.1 = (d, some a, some b).1) with _ | ⟨m, ms⟩
    · rw [hC] at hmem
      simp at hmem
    · rw [hC] at hmem
      rw [hC, List.mem_map]
      exact ⟨(d, c), hmem, rfl⟩

theorem mem_dropna3 (rows : List MergedRow3) (d : Int) (a b c : Rat) :
    (d, a, b, c) ∈ dropna3 rows ↔ (d, some a, some b, some c) ∈ rows := by
  rw [dropna3, List.mem_filterMap]
  constructor
  · rintro ⟨⟨d0, oa, ob, oc⟩, hr, heq⟩
    rcases oa with _ | a0 <;> rcases ob with _ | b0 <;> rcases oc with _ | c0 <;>
      simp only [Option.some.injEq, Prod.mk.injEq, reduceCtorEq] at heq
    obtain ⟨h1, h2, h3, h4⟩ := heq
    rw [h1, h2, h3, h4] at hr
    exact hr
  · intro h
    exact ⟨(d, some a, some b, some c), h, rfl⟩

/-- Row-set characterization of the merged benchmark table: a fully populated
row survives exactly when each input series has that date. -/
theorem mem_get_benchmark (hh jkm ttf : Series) (d : Int) (a b c : Rat) :
    (d, a, b, c) ∈ get_benchmark_prices_daily hh jkm ttf ↔
      (d, a) ∈ hh ∧ (d, b) ∈ jkm ∧ (d, c) ∈ ttf := by
  rw [get_benchmark_prices_daily, mem_dropna3,
    (List.perm_insertionSort m3LE _).mem_iff, mem_outerMerge3_some,
    mem_outerMerge2_some, and_assoc]

/-- Claim C1: every row of the merged benchmark table has a date at which all
three input series supply a (non-missing) value; hence each merged date lies
inside every input's date range (so the output range is contained in the
intersection of the input ranges), and if any input series is empty the
merged result is empty. -/
theorem merged_table_complete (hh jkm ttf : Series) :
    (∀ r ∈ get_benchmark_prices_daily hh jkm ttf,
      (r.1, r.2.1) ∈ hh ∧ (r.1, r.2.2.1) ∈ jkm ∧ (r.1, r.2.2.2) ∈ ttf ∧
      ((∃ x ∈ hh, x.1 ≤ r.1) ∧ (∃ x ∈ hh, r.1 ≤ x.1)) ∧
      ((∃ x ∈ jkm, x.1 ≤ r.1) ∧ (∃ x ∈ jkm, r.1 ≤ x.1)) ∧
      ((∃ x ∈ ttf, x.1 ≤ r.1) ∧ (∃ x ∈ ttf, r.1 ≤ x.1))) ∧
    ((hh = [] ∨ jkm = [] ∨ ttf = []) → get_benchmark_prices_daily hh jkm ttf = []) := by
  constructor
  · rintro ⟨d, a, b, c⟩ hr
    obtain ⟨h1, h2, h3⟩ := (mem_get_benchmark hh jkm ttf d a b c).mp hr
    exact ⟨h1, h2, h3,
      ⟨⟨(d, a), h1, le_refl d⟩, ⟨(d, a), h1, le_refl d⟩⟩,
      ⟨⟨(d, b), h2, le_refl d⟩, ⟨(d, b), h2, le_refl d⟩⟩,
      ⟨⟨(d, c), h3, le_refl d⟩, ⟨(d, c), h3, le_refl d⟩⟩⟩
  · intro h
    rw [List.eq_nil_iff_forall_not_mem]
    rintro ⟨d, a, b, c⟩ hr
    obtain ⟨h1, h2, h3⟩ := (mem_get_benchmark _ _ _ d a b c).mp hr
    rcases h with h | h | h
    · rw [h] at h1
      exact List.not_mem_nil _ h1
    · rw [h] at h2
      exact List.not_mem_nil _ h2
    · rw [h] at h3
      exact List.not_mem_nil _ h3

/-- Witness for C1: a concrete merge where only one date is shared by all
three series (Scenario D shape), checked at its surviving row. -/
theorem merged_table_complete_witness :
    ((1, (2 : Rat), (4 : Rat), (5 : Rat)) ∈
      get_benchmark_prices_daily [(1, 2), (2, 3)] [(1, 4)] [(1, 5), (3, 6)]) ∧
    ((1, (2 : Rat)) ∈ ([(1, 2), (2, 3)] : Series) ∧
      (1, (4 : Rat)) ∈ ([(1, 4)] : Series) ∧
      (1, (5 : Rat)) ∈ ([(1, 5), (3, 6)] : Series) ∧
      ((∃ x ∈ ([(1, 2), (2, 3)] : Series), x.1 ≤ 1) ∧
        (∃ x ∈ ([(1, 2), (2, 3)] : Series), 1 ≤ x.1)) ∧
      ((∃ x ∈ ([(1, 4)] : Series), x.1 ≤ 1) ∧
        (∃ x ∈ ([(1, 4)] : Series), 1 ≤ x.1)) ∧
      ((∃ x ∈ ([(1, 5), (3, 6)] : Series), x.1 ≤ 1) ∧
        (∃ x ∈ ([(1, 5), (3, 6)] : Series), 1 ≤ x.1))) :=
  ⟨by decide,
    (merged_table_complete [(1, 2), (2, 3)] [(1, 4)] [(1, 5), (3, 6)]).1
      (1, 2, 4, 5) (by decide)⟩

/-- The dropna over two-series merged rows (the Merger contract's final
null-drop instantiated at two inputs). -/
def dropna2 (rows : List MergedRow2) : List (Int × Rat × Rat) :=
  rows.filterMap fun r =>
    match r with
    | (d, some a, some b) => some (d, a, b)
    | _ => none

/-- The Merger contract (spec section 4.4) at two tables, exactly as
get_benchmark_prices_daily composes it: outer join on Date, then drop every
row with a missing value. -/
def mergeDrop (A B : Series) : List (Int × Rat × Rat) :=
  dropna2 (outerMerge2 A B)

theorem mem_mergeDrop (A B : Series) (d : Int) (a b : Rat) :
    (d, a, b) ∈ mergeDrop A B ↔ (d, a) ∈ A ∧ (d, b) ∈ B := by
  rw [mergeDrop, dropna2, List.mem_filterMap]
  constructor
  · rintro ⟨⟨d0, oa, ob⟩, hr, heq⟩
    rcases oa with _ | a0 <;> rcases ob with _ | b0 <;>
      simp only [Option.some.injEq, Prod.mk.injEq, reduceCtorEq] at heq
    obtain ⟨h1, h2, h3⟩ := heq
    rw [h1, h2, h3] at hr
    exact (mem_outerMerge2_some A B d a b).mp hr
  · intro h
    exact ⟨(d, some a, some b), (mem_outerMerge2_some A B d a b).mpr h, rfl⟩

/-- Claim C5: merging A then B yields the same row set, up to column order,
as merging B then A. -/
theorem merge_commutative (A B : Series) (d : Int) (a b : Rat) :
    (d, a, b) ∈ mergeDrop A B ↔ (d, b, a) ∈ mergeDrop B A := by
  rw [mem_mergeDrop, mem_mergeDrop, and_comm]

/-- Witness for C5 at concrete two-row series. -/
theorem merge_commutative_witness :
    (1, (2 : Rat), (3 : Rat)) ∈ mergeDrop [(1, 2), (4, 7)] [(1, 3)] ↔
      (1, (3 : Rat), (2 : Rat)) ∈ mergeDrop [(1, 3)] [(1, 2), (4, 7)] :=
  merge_commutative [(1, 2), (4, 7)] [(1, 3)] 1 2 3

/-! ## Latest-row accessors and spread tables (src/page1.py,
create_spot_price_table / create_ttf_spread_table)

Both builders run `df.sort_values("Date", ascending=False).iloc[0]`; we model
`.iloc[0]` as `head?`, `none` standing for the IndexError fault on an empty
frame (the code has no emptiness guard). -/

/-- Reverse date order on benchmark rows: `sort_values("Date",
ascending=False)`. -/
def benchGE (x y : BenchRow) : Prop := y.1 ≤ x.1

instance : DecidableRel benchGE := fun x y => inferInstanceAs (Decidable (y.1 ≤ x.1))

instance : IsTotal BenchRow benchGE := ⟨fun x y => Int.le_total y.1 x.1⟩

instance : IsTrans BenchRow benchGE := ⟨fun _ _ _ h h2 => le_trans h2 h⟩

/-- `df.sort_values("Date", ascending=False).iloc[0]`: the latest merged row,
`none` on the empty table. -/
def latestBenchRow (df : List BenchRow) : Option BenchRow :=
  (List.insertionSort benchGE df).head?

/-- create_spot_price_table: the three spot prices of the latest row, in the
display order Henry Hub, TTF, JKM. -/
def create_spot_price_table (df : List BenchRow) : Option (Rat × Rat × Rat) :=
  (latestBenchRow df).map fun latest => (latest.2.1, latest.2.2.2, latest.2.2.1)

/-- create_ttf_spread_table: from the latest row take hh = Henry Hub and
ttf = TTF (USD) and report (spread, spread less variable costs, spread less
all-in costs), with shipping = 0.70, regas = 0.35, liquefaction = 2.75 and
the 1.15 markup on hh. -/
def create_ttf_spread_table (df : List BenchRow) : Option (Rat × Rat × Rat) :=
  (latestBenchRow df).map fun latest =>
    (latest.2.2.2 - latest.2.1,
      latest.2.2.2 - latest.2.1 * (115 / 100) - 70 / 100 - 35 / 100,
      latest.2.2.2 - latest.2.1 * (115 / 100) - 70 / 100 - 35 / 100 - 275 / 100)

theorem latestBenchRow_spec (df : List BenchRow) (hne : df ≠ []) :
    ∃ r, latestBenchRow df = some r ∧ r ∈ df ∧ ∀ x ∈ df, x.1 ≤ r.1 := by
  rcases hs : List.insertionSort benchGE df with _ | ⟨r, rest⟩
  · exfalso
    apply hne
    have := List.perm_insertionSort benchGE df
    rw [hs] at this
    exact (List.Perm.nil_eq this).symm
  · refine ⟨r, ?_, ?_, ?_⟩
    · rw [latestBenchRow, hs]
      rfl
    · have := (List.perm_insertionSort benchGE df).mem_iff (a := r)
      rw [hs] at this
      exact this.mp (List.mem_cons_self _ _)
    · intro x hx
      have hxs : x ∈ List.insertionSort benchGE df :=
        ((List.perm_insertionSort benchGE df).mem_iff).mpr hx
      rw [hs] at hxs
      rcases List.mem_cons.mp hxs with h | h
      · rw [h]
      · have hsorted := List.sorted_insertionSort benchGE df
        rw [hs] at hsorted
        exact List.rel_of_sorted_cons hsorted x h

/-- Claim C9: both latest-row table builders fault (return the IndexError
marker `none`) on the empty merged table — the fault is reachable, nothing
guards it — and on every non-empty table they succeed, reading the row with
the maximal Date. -/
theorem latest_row_accessors (df : List BenchRow) :
    (create_spot_price_table [] = none ∧ create_ttf_spread_table [] = none) ∧
    (df ≠ [] →
      ∃ r, r ∈ df ∧ (∀ x ∈ df, x.1 ≤ r.1) ∧
        create_spot_price_table df = some (r.2.1, r.2.2.2, r.2.2.1) ∧
        create_ttf_spread_table df =
          some (r.2.2.2 - r.2.1,
            r.2.2.2 - r.2.1 * (115 / 100) - 70 / 100 - 35 / 100,
            r.2.2.2 - r.2.1 * (115 / 100) - 70 / 100 - 35 / 100 - 275 / 100)) := by
  refine ⟨⟨rfl, rfl⟩, fun hne => ?_⟩
  obtain ⟨r, hr, hmem, hmax⟩ := latestBenchRow_spec df hne
  exact ⟨r, hmem, hmax,
    by rw [create_spot_price_table, hr]; rfl,
    by rw [create_ttf_spread_table, hr]; rfl⟩

/-- Witness for C9 on a concrete two-row merged table. -/
theorem latest_row_accessors_witness :
    (([(3, (1 : Rat), 2, 3), (7, 4, 5, 6)] : List BenchRow) ≠ []) ∧
    (∃ r, r ∈ ([(3, (1 : Rat), 2, 3), (7, 4, 5, 6)] : List BenchRow) ∧
      (∀ x ∈ ([(3, (1 : Rat), 2, 3), (7, 4, 5, 6)] : List BenchRow), x.1 ≤ r.1) ∧
      create_spot_price_table [(3, 1, 2, 3), (7, 4, 5, 6)] =
        some (r.2.1, r.2.2.2, r.2.2.1) ∧
      create_ttf_spread_table [(3, 1, 2, 3), (7, 4, 5, 6)] =
        some (r.2.2.2 - r.2.1,
          r.2.2.2 - r.2.1 * (115 / 100) - 70 / 100 - 35 / 100,
          r.2.2.2 - r.2.1 * (115 / 100) - 70 / 100 - 35 / 100 - 275 / 100)) :=
  ⟨by decide, (latest_row_accessors [(3, 1, 2, 3), (7, 4, 5, 6)]).2 (by decide)⟩

/-- Claim C4: for the latest merged row the TTF spread is ttf − hh and the
variable-cost-adjusted spread is ttf − hh·1.15 − 0.70 − 0.35; at hh = 2.00
and ttf = 10.00 these are 8.00 and 6.65 (= 133/20), per Scenario A. -/
theorem ttf_spread_formula (df : List BenchRow) (r : BenchRow)
    (h : latestBenchRow df = some r) :
    create_ttf_spread_table df =
      some (r.2.2.2 - r.2.1,
        r.2.2.2 - r.2.1 * (115 / 100) - 70 / 100 - 35 / 100,
        r.2.2.2 - r.2.1 * (115 / 100) - 70 / 100 - 35 / 100 - 275 / 100) ∧
    create_ttf_spread_table [(0, 2, 4, 10)] = some (8, 133 / 20, 39 / 10) := by
  constructor
  · rw [create_ttf_spread_table, h]
    rfl
  · have h0 : latestBenchRow [(0, 2, 4, 10)] = some (0, 2, 4, 10) := rfl
    rw [create_ttf_spread_table, h0]
    norm_num [Option.map, Prod.ext_iff]

/-- Witness for C4: Scenario A prices as the (single) latest merged row. -/
theorem ttf_spread_formula_witness :
    latestBenchRow [(0, 2, 4, 10)] = some ((0 : Int), (2 : Rat), (4 : Rat), (10 : Rat)) ∧
    create_ttf_spread_table [(0, 2, 4, 10)] =
      some ((10 : Rat) - 2, 10 - 2 * (115 / 100) - 70 / 100 - 35 / 100,
        10 - 2 * (115 / 100) - 70 / 100 - 35 / 100 - 275 / 100) :=
  ⟨by decide, (ttf_spread_formula [(0, 2, 4, 10)] (0, 2, 4, 10) (by decide)).1⟩

/-! ## Period-over-period percent change (src/page3.py, prep_data_for_graph)

df_monthly = df_all.groupby(["Month", "Basin"]).sum() lists, within each
basin, one row per month with the months ascending (groupby sorts its keys);
then groupby("Basin")["Rig Count Value"].pct_change() * 100 compares each row
with the immediately preceding row of the same basin.  We model one basin's
group. -/

/-- pandas Series.pct_change: the first entry is missing, entry i+1 is
cur/prev − 1. -/
def pct_change (xs : List Rat) : List (Option Rat) :=
  match xs with
  | [] => []
  | x :: rest =>
    none :: List.zipWith (fun prev cur => some (cur / prev - 1)) (x :: rest) rest

/-- The distinct months appearing in one basin's rows (the group keys). -/
def month_keys (rows : List (Int × Rat)) : List Int :=
  (rows.map fun r => r.1).dedup

/-- The groupby(["Month", "Basin"]) sum of Rig Count Value for one basin and
month. -/
def monthly_sum (rows : List (Int × Rat)) (m : Int) : Rat :=
  ((rows.filter fun r => r.1 = m).map fun r => r.2).sum

/-- One basin's slice of df_monthly: a row per distinct month, months sorted
ascending. -/
def df_monthly (rows : List (Int × Rat)) : List (Int × Rat) :=
  (List.insertionSort (· ≤ ·) (month_keys rows)).map fun m => (m, monthly_sum rows m)

/-- The basin's MoM % Change column: pct_change of the monthly sums, × 100. -/
def mom_pct_change (rows : List (Int × Rat)) : List (Option Rat) :=
  (pct_change ((df_monthly rows).map fun r => r.2)).map fun o => o.map fun q => q * 100

theorem pct_change_getElem (xs : List Rat) (i : Nat) (h : i + 1 < xs.length) :
    (pct_change xs)[i + 1]? = some (some (xs.getD (i + 1) 0 / xs.getD i 0 - 1)) := by
  induction xs generalizing i with
  | nil => simp at h
  | cons x rest ih =>
    rcases rest with _ | ⟨y, rest2⟩
    · simp at h
    · rcases i with _ | j
      · simp [pct_change]
      · have hj : j + 1 < (y :: rest2).length := by
          simpa using Nat.lt_of_succ_lt_succ h
        have := ih j hj
        simp only [pct_change] at this ⊢
        simpa [List.getD_cons_succ] using this

/-- Claim C2: within each basin group the monthly rows are listed in strictly
ascending date order; the first row's MoM % Change is missing (never zero);
and row i+1 gets (current − previous)/previous × 100 against the immediately
preceding month of the same group (stated for previous ≠ 0, where the pandas
value is finite). -/
theorem mom_pct_change_spec (rows : List (Int × Rat)) (i : Nat) :
    List.Pairwise (· < ·) ((df_monthly rows).map fun r => r.1) ∧
    (df_monthly rows ≠ [] → (mom_pct_change rows)[0]? = some none) ∧
    (i + 1 < (df_monthly rows).length →
      ((df_monthly rows).map fun r => r.2).getD i 0 ≠ 0 →
      (mom_pct_change rows)[i + 1]? =
        some (some ((((df_monthly rows).map fun r => r.2).getD (i + 1) 0 -
            ((df_monthly rows).map fun r => r.2).getD i 0) /
          ((df_monthly rows).map fun r => r.2).getD i 0 * 100))) := by
  refine ⟨?_, ?_, ?_⟩
  · have hkeys : ((df_monthly rows).map fun r => r.1) =
        List.insertionSort (· ≤ ·) (month_keys rows) := by
      simp [df_monthly, List.map_map, Function.comp_def]
    rw [hkeys]
    have hsorted : List.Sorted (· ≤ ·) (List.insertionSort (· ≤ ·) (month_keys rows)) :=
      List.sorted_insertionSort _ _
    have hnodup : (List.insertionSort (· ≤ ·) (month_keys rows)).Nodup :=
      ((List.perm_insertionSort _ _).nodup_iff).mpr (List.nodup_dedup _)
    exact (hsorted.and hnodup).imp fun h => lt_of_le_of_ne h.1 h.2
  · intro hne
    rcases h : df_monthly rows with _ | ⟨r0, rest⟩
    · exact absurd h hne
    · simp [mom_pct_change, pct_change, h]
  · intro hlen hprev
    have hlen2 : i + 1 < ((df_monthly rows).map fun r => r.2).length := by
      simpa using hlen
    rw [mom_pct_change, List.getElem?_map, pct_change_getElem _ i hlen2]
    have key : ∀ c p : Rat, p ≠ 0 → (c / p - 1) * 100 = (c - p) / p * 100 := by
      intro c p hp
      field_simp
    have harith := key (((df_monthly rows).map fun r => r.2).getD (i + 1) 0)
      (((df_monthly rows).map fun r => r.2).getD i 0) hprev
    exact congrArg (fun q : Rat => some (some q)) harith

/-- Witness for C2 on one basin with monthly sums 5 then 7 (Scenario B's
numbers: the second month's change is (7 − 5)/5 × 100). -/
theorem mom_pct_change_spec_witness :
    ((0 : Nat) + 1 < (df_monthly [(1, 5), (2, 7)]).length ∧
      ((df_monthly [(1, 5), (2, 7)]).map fun r => r.2).getD 0 0 ≠ 0) ∧
    (mom_pct_change [(1, 5), (2, 7)])[0 + 1]? =
      some (some ((((df_monthly [(1, 5), (2, 7)]).map fun r => r.2).getD (0 + 1) 0 -
          ((df_monthly [(1, 5), (2, 7)]).map fun r => r.2).getD 0 0) /
        ((df_monthly [(1, 5), (2, 7)]).map fun r => r.2).getD 0 0 * 100)) :=
  ⟨⟨by decide, by norm_num [df_monthly, month_keys, monthly_sum]⟩,
    (mom_pct_change_spec [(1, 5), (2, 7)] 0).2.2 (by decide)
      (by norm_num [df_monthly, month_keys, monthly_sum])⟩

/-! ## Year-over-year comparisons (src/page3.py, prep_data_for_graph and
fig_prod_change)

pd.DateOffset(years=1) steps back one calendar year; with dates as day
numbers we write the offset as 365 days — the windowing/selection logic under
scrutiny does not depend on the exact year length. -/

/-- A cleaned weekly rig-count record: (US_PublishDate, Basin, Rig Count
Value). -/
abbrev RigRow := Int × String × Rat

/-- df_prior: the rows whose publish date lies within ±3 days of
(current_date − 1 year), i.e. in [prior_start, prior_end]. -/
def rig_prior_window (allRows : List RigRow) (d : Int) : List RigRow :=
  allRows.filter fun r => d - 365 - 3 ≤ r.1 ∧ r.1 ≤ d - 365 + 3

/-- groupby("Basin")["Rig Count Value"].sum() for one basin. -/
def basin_sum (rows : List RigRow) (b : String) : Rat :=
  ((rows.filter fun r => r.2.1 = b).map fun r => r.2.2).sum

/-- The YoY % Change prep_data_for_graph attaches to basin b: the left merge
with the prior-window groupby sum leaves the prior count missing — and hence
the YoY change missing — exactly when no window row carries basin b. -/
def rig_yoy (allRows latestRows : List RigRow) (d : Int) (b : String) : Option Rat :=
  if (rig_prior_window allRows d).any fun r => r.2.1 = b then
    some ((basin_sum latestRows b - basin_sum (rig_prior_window allRows d) b) /
      basin_sum (rig_prior_window allRows d) b * 100)
  else none

/-- One wide production row of df_prod_raw: Date, then the basin columns. -/
abbrev ProdRow := Int × List Rat

/-- Date order on wide production rows, for `df.sort_values('Date')`. -/
def prodLE (x y : ProdRow) : Prop := x.1 ≤ y.1

instance : DecidableRel prodLE := fun x y => inferInstanceAs (Decidable (x.1 ≤ y.1))

instance : IsTotal ProdRow prodLE := ⟨fun x y => Int.le_total x.1 y.1⟩

instance : IsTrans ProdRow prodLE := ⟨fun _ _ _ h h2 => le_trans h h2⟩

/-- `df['Date'].sub(target).abs().idxmin()`: the date minimizing
|date − target|; Python's idxmin keeps the first minimum on ties. -/
def closest_date (d0 : Int) (ds : List Int) (target : Int) : Int :=
  ds.foldl (fun best x => if (x - target).natAbs < (best - target).natAbs then x else best) d0

/-- `df.loc[df['Date'] == d].iloc[0, 1:]`: the basin values of the first row
carrying date d. -/
def row_values_at (s : List ProdRow) (d : Int) : List Rat :=
  ((s.find? fun r => r.1 = d).map fun r => r.2).getD []

/-- fig_prod_change: sort by Date, drop rows whose basin total is 0, then
subtract the row whose date is closest to (latest − 1 year) from the row
closest to the latest date — a nearest-neighbour pick with no tolerance
window.  `none` models the fault on an empty table. -/
def fig_prod_change (df : List ProdRow) : Option (List Rat) :=
  match (List.insertionSort prodLE df).filter (fun r => ¬ r.2.sum = 0) with
  | [] => none
  | r0 :: rest =>
    let s := r0 :: rest
    let dates := s.map fun r => r.1
    let latest_date := dates.foldl max r0.1
    let prior_date := latest_date - 365
    some (List.zipWith (fun a b => a - b)
      (row_values_at s (closest_date r0.1 dates latest_date))
      (row_values_at s (closest_date r0.1 dates prior_date)))

theorem closest_date_mem (d0 : Int) (ds : List Int) (t : Int) :
    closest_date d0 ds t ∈ d0 :: ds := by
  induction ds generalizing d0 with
  | nil => simp [closest_date]
  | cons x xs ih =>
    have h := ih (if (x - t).natAbs < (d0 - t).natAbs then x else d0)
    have hstep : closest_date d0 (x :: xs) t =
        closest_date (if (x - t).natAbs < (d0 - t).natAbs then x else d0) xs t := by
      rw [closest_date, closest_date, List.foldl_cons]
    rw [hstep]
    rcases List.mem_cons.mp h with h | h
    · rw [h]
      by_cases hc : (x - t).natAbs < (d0 - t).natAbs <;> simp [hc]
    · exact List.mem_cons_of_mem _ (List.mem_cons_of_mem _ h)

theorem closest_date_min (d0 : Int) (ds : List Int) (t : Int) :
    ∀ x ∈ d0 :: ds, (closest_date d0 ds t - t).natAbs ≤ (x - t).natAbs := by
  induction ds generalizing d0 with
  | nil =>
    intro x hx
    rw [List.mem_singleton.mp hx]
    simp [closest_date]
  | cons y ys ih =>
    intro x hx
    have hstep : closest_date d0 (y :: ys) t =
        closest_date (if (y - t).natAbs < (d0 - t).natAbs then y else d0) ys t := by
      rw [closest_date, closest_date, List.foldl_cons]
    have hboth : ((if (y - t).natAbs < (d0 - t).natAbs then y else d0) - t).natAbs ≤
          (d0 - t).natAbs ∧
        ((if (y - t).natAbs < (d0 - t).natAbs then y else d0) - t).natAbs ≤
          (y - t).natAbs := by
      by_cases hc : (y - t).natAbs < (d0 - t).natAbs <;> simp [hc] <;> omega
    have hrec := ih (if (y - t).natAbs < (d0 - t).natAbs then y else d0)
    have hhead := hrec _ (List.mem_cons_self _ _)
    rcases List.mem_cons.mp hx with hx | hx
    · rw [hx, hstep]
      exact le_trans hhead hboth.1
    rcases List.mem_cons.mp hx with hx | hx
    · rw [hx, hstep]
      exact le_trans hhead hboth.2
    · rw [hstep]
      exact hrec _ (List.mem_cons_of_mem _ hx)

/-- Claim C3 counterexample: on the production table with rows at day 0 and
day 700, no date lies within the ±3-day window around (latest − 1 year)
= day 335, yet fig_prod_change still computes a change (8 − 5, from the
day-0 record, 335 days off target) instead of the "no value" the claim
requires. -/
theorem prod_yoy_counterexample :
    fig_prod_change [(0, [5]), (700, [8])] = some [8 - 5] ∧
    (∀ d ∈ ([(0, [5]), (700, [8])] : List ProdRow).map fun r => r.1,
      ¬ (700 - 365 - 3 ≤ d ∧ d ≤ 700 - 365 + 3)) := by
  constructor
  · norm_num [fig_prod_change, List.insertionSort, List.orderedInsert, row_values_at,
      closest_date, List.filter, List.find?, List.foldl]
  · decide

/-- Claim C3 (amended): the rig-count YoY computation does honor the ±3-day
window around (current − 1 year) — a basin with no record in the window gets
a missing change (never zero), and records outside the window never affect
the result — but the production YoY computation in fig_prod_change instead
takes the record whose date is closest to (latest − 1 year) with no tolerance
window: the closest-date pick minimizes |date − target| over all retained
dates, and a change is computed whenever any row survives the zero-total
filter, even when every record is far outside the window. -/
theorem yoy_prior_selection (allRows latestRows : List RigRow) (d : Int) (b : String)
    (r : RigRow) (df : List ProdRow) (d0 target : Int) (ds : List Int) :
    ((∀ x ∈ rig_prior_window allRows d, ¬ x.2.1 = b) →
      rig_yoy allRows latestRows d b = none) ∧
    (¬ (d - 365 - 3 ≤ r.1 ∧ r.1 ≤ d - 365 + 3) →
      rig_yoy (r :: allRows) latestRows d b = rig_yoy allRows latestRows d b) ∧
    (closest_date d0 ds target ∈ d0 :: ds ∧
      ∀ x ∈ d0 :: ds, (closest_date d0 ds target - target).natAbs ≤ (x - target).natAbs) ∧
    ((List.insertionSort prodLE df).filter (fun x => ¬ x.2.sum = 0) ≠ [] →
      ∃ v, fig_prod_change df = some v) := by
  refine ⟨fun hall => ?_, fun hout => ?_,
    ⟨closest_date_mem d0 ds target, closest_date_min d0 ds target⟩, fun hne => ?_⟩
  · rw [rig_yoy, if_neg]
    intro hany
    rw [List.any_eq_true] at hany
    obtain ⟨x, hx, hxb⟩ := hany
    exact hall x hx (of_decide_eq_true hxb)
  · have hfilter : rig_prior_window (r :: allRows) d = rig_prior_window allRows d := by
      rw [rig_prior_window, rig_prior_window, List.filter_cons_of_neg]
      simpa using hout
    rw [rig_yoy, rig_yoy, hfilter]
  · rcases hs : (List.insertionSort prodLE df).filter (fun x => ¬ x.2.sum = 0)
      with _ | ⟨r0, rest⟩
    · exact absurd hs hne
    · exact ⟨List.zipWith (fun a b => a - b)
        (row_values_at (r0 :: rest) (closest_date r0.1 ((r0 :: rest).map fun x => x.1)
          (((r0 :: rest).map fun x => x.1).foldl max r0.1)))
        (row_values_at (r0 :: rest) (closest_date r0.1 ((r0 :: rest).map fun x => x.1)
          ((((r0 :: rest).map fun x => x.1).foldl max r0.1) - 365))),
        by rw [fig_prod_change, hs]⟩

/-- Witness for C3 (amended) at concrete data: an empty window gives a
missing rig YoY, an out-of-window record leaves it unchanged, and the
production change on the day-0/day-700 table exists. -/
theorem yoy_prior_selection_witness :
    rig_yoy [] [((700 : Int), "Permian", (6 : Rat))] 700 "Permian" = none ∧
    rig_yoy [((1000 : Int), "Permian", (2 : Rat))] [((700 : Int), "Permian", (6 : Rat))]
        700 "Permian" =
      rig_yoy [] [((700 : Int), "Permian", (6 : Rat))] 700 "Permian" ∧
    (closest_date 0 [0, 700] 335 ∈ (0 : Int) :: [0, 700] ∧
      ∀ x ∈ (0 : Int) :: [0, 700],
        (closest_date 0 [0, 700] 335 - 335).natAbs ≤ (x - 335).natAbs) ∧
    (∃ v, fig_prod_change [(0, [5]), (700, [8])] = some v) :=
  ⟨(yoy_prior_selection [] [(700, "Permian", 6)] 700 "Permian" (1000, "Permian", 2)
      [(0, [5]), (700, [8])] 0 335 [0, 700]).1 (by decide),
    (yoy_prior_selection [] [(700, "Permian", 6)] 700 "Permian" (1000, "Permian", 2)
      [(0, [5]), (700, [8])] 0 335 [0, 700]).2.1 (by decide),
    (yoy_prior_selection [] [(700, "Permian", 6)] 700 "Permian" (1000, "Permian", 2)
      [(0, [5]), (700, [8])] 0 335 [0, 700]).2.2.1,
    (yoy_prior_selection [] [(700, "Permian", 6)] 700 "Permian" (1000, "Permian", 2)
      [(0, [5]), (700, [8])] 0 335 [0, 700]).2.2.2 (by
        norm_num [List.insertionSort, List.orderedInsert, List.filter]
        exact List.cons_ne_nil _ _)⟩

/-! ## Rolling 5-year band (src/page5.py, load_eu_storage)

After transposing, each surviving row carries a year-month date and one
(possibly missing) numeric cell per country; the Total column multiplies the
numeric cells by 0.0353147 and sums skipping missing cells; then the
"5-Year" Avg/High/Low columns are the mean/max/min of the Total over all rows
sharing the row's calendar month number (all history, not a trailing
window). -/

/-- A year-month date of the transposed Eurostat table. -/
structure MDate where
  year : Int
  month : Nat
  deriving DecidableEq

/-- A transposed row: its date and its per-country cells after best-effort
numeric coercion. -/
abbrev EuRawRow := MDate × List (Option Rat)

/-- Cubic-metre to Bcf conversion: the source's 0.0353147. -/
def m3_to_bcf : Rat := 353147 / 10000000

/-- The Total column: convert each present cell and sum, skipping missing
ones. -/
def eu_total (vals : List (Option Rat)) : Rat :=
  ((vals.filterMap id).map fun v => v * m3_to_bcf).sum

/-- The (Date, Total) table the bands are computed over. -/
def eu_totals (input : List EuRawRow) : List (MDate × Rat) :=
  input.map fun r => (r.1, eu_total r.2)

/-- groupby(index.month): the Totals of all rows sharing month number m. -/
def month_group (rows : List (MDate × Rat)) (m : Nat) : List Rat :=
  (rows.filter fun r => r.1.month = m).map fun r => r.2

/-- transform("min") over a month group. -/
def band_min : List Rat → Rat
  | [] => 0
  | [x] => x
  | x :: y :: xs => min x (band_min (y :: xs))

/-- transform("max") over a month group. -/
def band_max : List Rat → Rat
  | [] => 0
  | [x] => x
  | x :: y :: xs => max x (band_max (y :: xs))

/-- transform("mean") over a month group. -/
def band_mean (l : List Rat) : Rat := l.sum / l.length

/-- load_eu_storage's result rows: (Date, Total, 5-Year Avg, 5-Year High,
5-Year Low), the three bands taken over the row's month group. -/
def load_eu_storage (input : List EuRawRow) : List (MDate × Rat × Rat × Rat × Rat) :=
  (eu_totals input).map fun r =>
    (r.1, r.2, band_mean (month_group (eu_totals input) r.1.month),
      band_max (month_group (eu_totals input) r.1.month),
      band_min (month_group (eu_totals input) r.1.month))

theorem band_min_le (l : List Rat) : ∀ x ∈ l, band_min l ≤ x := by
  induction l with
  | nil => intro x hx; exact absurd hx (List.not_mem_nil x)
  | cons a t ih =>
    intro x hx
    rcases t with _ | ⟨b, t2⟩
    · rw [List.mem_singleton.mp hx]
      exact le_refl a
    · rcases List.mem_cons.mp hx with hx | hx
      · rw [hx]
        exact min_le_left _ _
      · exact le_trans (min_le_right _ _) (ih x hx)

theorem le_band_max (l : List Rat) : ∀ x ∈ l, x ≤ band_max l := by
  induction l with
  | nil => intro x hx; exact absurd hx (List.not_mem_nil x)
  | cons a t ih =>
    intro x hx
    rcases t with _ | ⟨b, t2⟩
    · rw [List.mem_singleton.mp hx]
      exact le_refl a
    · rcases List.mem_cons.mp hx with hx | hx
      · rw [hx]
        exact le_max_left _ _
      · exact le_trans (ih x hx) (le_max_right _ _)

theorem band_mean_between (l : List Rat) (hne : l ≠ []) :
    band_min l ≤ band_mean l ∧ band_mean l ≤ band_max l := by
  have hpos : 0 < l.length := List.length_pos.mpr hne
  have hlen : 0 < (l.length : Rat) := by exact_mod_cast hpos
  constructor
  · rw [band_mean, le_div_iff₀ hlen]
    have h1 := List.card_nsmul_le_sum l (band_min l) (band_min_le l)
    rw [nsmul_eq_mul] at h1
    linarith
  · rw [band_mean, div_le_iff₀ hlen]
    have h1 := List.sum_le_card_nsmul l (band_max l) (le_band_max l)
    rw [nsmul_eq_mul] at h1
    linarith

/-- Claim C7: every row of the EU storage table satisfies
5-Year Low ≤ Total ≤ 5-Year High and 5-Year Low ≤ 5-Year Avg ≤ 5-Year High,
the three bands being the min/mean/max of all Totals sharing the row's
calendar month. -/
theorem eu_band_invariant (input : List EuRawRow) (d : MDate) (t avg hi lo : Rat)
    (hmem : (d, t, avg, hi, lo) ∈ load_eu_storage input) :
    (lo ≤ t ∧ t ≤ hi) ∧ (lo ≤ avg ∧ avg ≤ hi) ∧
    avg = band_mean (month_group (eu_totals input) d.month) ∧
    hi = band_max (month_group (eu_totals input) d.month) ∧
    lo = band_min (month_group (eu_totals input) d.month) := by
  rw [load_eu_storage, List.mem_map] at hmem
  obtain ⟨r, hr, heq⟩ := hmem
  simp only [Prod.mk.injEq] at heq
  obtain ⟨h1, h2, h3, h4, h5⟩ := heq
  rw [h1] at h3 h4 h5
  have htg : t ∈ month_group (eu_totals input) d.month := by
    rw [month_group, List.mem_map]
    refine ⟨r, List.mem_filter.mpr ⟨hr, ?_⟩, h2⟩
    rw [h1]
    simp
  have hne : month_group (eu_totals input) d.month ≠ [] :=
    List.ne_nil_of_mem htg
  have hmean := band_mean_between _ hne
  refine ⟨⟨?_, ?_⟩, ⟨?_, ?_⟩, h3.symm, h4.symm, h5.symm⟩
  · rw [← h5]
    exact band_min_le _ t htg
  · rw [← h4]
    exact le_band_max _ t htg
  · rw [← h5, ← h3]
    exact hmean.1
  · rw [← h4, ← h3]
    exact hmean.2

/-- Witness for C7: a two-row table sharing one calendar month. -/
theorem eu_band_invariant_witness :
    ((⟨2024, 1⟩, eu_total [some 1],
        band_mean (month_group (eu_totals [(⟨2024, 1⟩, [some 1]), (⟨2025, 1⟩, [some 3])]) 1),
        band_max (month_group (eu_totals [(⟨2024, 1⟩, [some 1]), (⟨2025, 1⟩, [some 3])]) 1),
        band_min (month_group (eu_totals [(⟨2024, 1⟩, [some 1]), (⟨2025, 1⟩, [some 3])]) 1)) ∈
      load_eu_storage [(⟨2024, 1⟩, [some 1]), (⟨2025, 1⟩, [some 3])]) ∧
    ((band_min (month_group (eu_totals [(⟨2024, 1⟩, [some 1]), (⟨2025, 1⟩, [some 3])]) 1) ≤
        eu_total [some 1] ∧
      eu_total [some 1] ≤
        band_max (month_group (eu_totals [(⟨2024, 1⟩, [some 1]), (⟨2025, 1⟩, [some 3])]) 1)) ∧
      (band_min (month_group (eu_totals [(⟨2024, 1⟩, [some 1]), (⟨2025, 1⟩, [some 3])]) 1) ≤
        band_mean (month_group (eu_totals [(⟨2024, 1⟩, [some 1]), (⟨2025, 1⟩, [some 3])]) 1) ∧
      band_mean (month_group (eu_totals [(⟨2024, 1⟩, [some 1]), (⟨2025, 1⟩, [some 3])]) 1) ≤
        band_max (month_group (eu_totals [(⟨2024, 1⟩, [some 1]), (⟨2025, 1⟩, [some 3])]) 1))) := by
  have hm : (⟨2024, 1⟩, eu_total [some 1],
      band_mean (month_group (eu_totals [(⟨2024, 1⟩, [some 1]), (⟨2025, 1⟩, [some 3])]) 1),
      band_max (month_group (eu_totals [(⟨2024, 1⟩, [some 1]), (⟨2025, 1⟩, [some 3])]) 1),
      band_min (month_group (eu_totals [(⟨2024, 1⟩, [some 1]), (⟨2025, 1⟩, [some 3])]) 1)) ∈
      load_eu_storage [(⟨2024, 1⟩, [some 1]), (⟨2025, 1⟩, [some 3])] :=
    List.mem_cons_self _ _
  have h := eu_band_invariant [(⟨2024, 1⟩, [some 1]), (⟨2025, 1⟩, [some 3])] ⟨2024, 1⟩
    (eu_total [some 1])
    (band_mean (month_group (eu_totals [(⟨2024, 1⟩, [some 1]), (⟨2025, 1⟩, [some 3])]) 1))
    (band_max (month_group (eu_totals [(⟨2024, 1⟩, [some 1]), (⟨2025, 1⟩, [some 3])]) 1))
    (band_min (month_group (eu_totals [(⟨2024, 1⟩, [some 1]), (⟨2025, 1⟩, [some 3])]) 1)) hm
  exact ⟨hm, h.1, h.2.1⟩

/-! ## Production long format (src/page3.py, df_prod_long)

df_prod_raw.melt(id_vars="Date") turns each wide row into one row per basin
column, keeping missing cells; then df_prod_long keeps only rows whose
Production (Bcf/d) compares > 0 — a comparison that is False for missing
values, so zeros, negatives and missing cells are all dropped alike. -/

/-- A wide production row: Date and the (basin name, possibly missing value)
cells. -/
abbrev WideProdRow := Int × List (String × Option Rat)

/-- The melt: one long row (Date, Basin, value) per basin cell. -/
def melt_prod (raws : List WideProdRow) : List (Int × String × Option Rat) :=
  raws.flatMap fun r => r.2.map fun c => (r.1, c.1, c.2)

/-- df_prod_long: the melted rows with Production (Bcf/d) > 0; a missing
value never satisfies the comparison. -/
def df_prod_long (raws : List WideProdRow) : List (Int × String × Option Rat) :=
  (melt_prod raws).filter fun e =>
    match e.2.2 with
    | some v => decide (0 < v)
    | none => false

/-- Claim C10: a melted row is retained exactly when its production value is
present and strictly positive, so every charted row has Production > 0 and a
zero (or negative, or missing) production period never appears. -/
theorem prod_long_positive (raws : List WideProdRow) (d : Int) (b : String)
    (ov : Option Rat) :
    ((d, b, ov) ∈ df_prod_long raws ↔
      (d, b, ov) ∈ melt_prod raws ∧ ∃ v, ov = some v ∧ 0 < v) ∧
    (∀ v, (d, b, some v) ∈ df_prod_long raws → 0 < v) ∧
    ((d, b, (none : Option Rat)) ∉ df_prod_long raws) := by
  have key : ∀ o : Option Rat,
      (match o with
        | some v => decide (0 < v)
        | none => false) = true ↔ ∃ v, o = some v ∧ 0 < v := by
    intro o
    rcases o with _ | v
    · simp
    · simp
  have hmem : ∀ o : Option Rat, ((d, b, o) ∈ df_prod_long raws ↔
      (d, b, o) ∈ melt_prod raws ∧ ∃ v, o = some v ∧ 0 < v) := by
    intro o
    rw [df_prod_long, List.mem_filter]
    exact and_congr_right fun _ => key o
  refine ⟨hmem ov, fun v hv => ?_, fun hv => ?_⟩
  · obtain ⟨-, w, hw, hwpos⟩ := (hmem (some v)).mp hv
    rwa [← Option.some_inj.mp hw] at hwpos
  · obtain ⟨-, w, hw, -⟩ := (hmem none).mp hv
    exact Option.noConfusion hw

/-- Witness for C10: a three-cell table with a positive, a zero and a missing
value; the positive row is retained. -/
theorem prod_long_positive_witness :
    (((5 : Int), "Marcellus", (some 2 : Option Rat)) ∈
        df_prod_long [(5, [("Marcellus", some 2), ("Utica", some 0), ("Permian", none)])] ↔
      ((5 : Int), "Marcellus", (some 2 : Option Rat)) ∈
        melt_prod [(5, [("Marcellus", some 2), ("Utica", some 0), ("Permian", none)])] ∧
        ∃ v, (some 2 : Option Rat) = some v ∧ 0 < v) ∧
    (∀ v, ((5 : Int), "Marcellus", some v) ∈
        df_prod_long [(5, [("Marcellus", some 2), ("Utica", some 0), ("Permian", none)])] →
      0 < v) ∧
    (((5 : Int), "Marcellus", (none : Option Rat)) ∉
      df_prod_long [(5, [("Marcellus", some 2), ("Utica", some 0), ("Permian", none)])]) :=
  prod_long_positive [(5, [("Marcellus", some 2), ("Utica", some 0), ("Permian", none)])]
    5 "Marcellus" (some 2)
